import Mathlib

/-
Verification of the SyncVault differential backup engine (src/SyncVault.py).

Modelling conventions (shallow embedding):
- Python strings are modelled as lists of characters (PyStr), so that all
  string operations reduce in the kernel.
- Python dicts are modelled as association lists with first-match lookup and
  in-place assignment semantics (dict_set).
- The filesystem, the hashing primitive and the clock are modelled as explicit
  environment records of functions: hashing a path either yields a digest or
  raises (Option), copying either succeeds or raises (Bool).
- Worker-pool nondeterminism is modelled by an explicit completion order,
  a list that theorems relate to the enumerated task list by permutation.
-/

namespace SyncVault

/-- Python strings, modelled as character lists so the kernel can evaluate
string operations on concrete inputs. -/
abbrev PyStr := List Char

/-- Model of os.path.basename on POSIX paths: everything after the last
slash (the whole string when no slash occurs). -/
def py_basename (p : PyStr) : PyStr :=
  (p.reverse.takeWhile (fun c => c != '/')).reverse

/-! ## Exclusion filter (BackupManager._should_exclude, SyncVault.py 316-333) -/

/-- The for-loop body of BackupManager._should_exclude: for each pattern,
in order, test (a) pattern.startswith("*") and filename.endswith(pattern[1:]),
(b) pattern.endswith("*") and filename.startswith(pattern[:-1]),
(c) pattern == filename; return True on the first hit, False if no
pattern matches. -/
def exclude_loop (filename : PyStr) : List PyStr → Bool
  | [] => false
  | p :: rest =>
    if List.isPrefixOf ['*'] p && List.isSuffixOf (p.drop 1) filename then true
    else if List.isSuffixOf ['*'] p && List.isPrefixOf p.dropLast filename then true
    else if p == filename then true
    else exclude_loop filename rest

/-- BackupManager._should_exclude: match the configured patterns against the
base name of the path. -/
def should_exclude (exclude_patterns : List PyStr) (filepath : PyStr) : Bool :=
  exclude_loop (py_basename filepath) exclude_patterns

/-- Modelled from the spec wording of section 4.1 (for comparison with the
code): a single pattern matches a name when the pattern starts with a star
and the name ends with the remainder, or the pattern ends with a star and
the name starts with the part before it, or the pattern equals the name. -/
def spec_pattern_match (p name : PyStr) : Bool :=
  (List.isPrefixOf ['*'] p && List.isSuffixOf (p.drop 1) name) ||
  (List.isSuffixOf ['*'] p && List.isPrefixOf p.dropLast name) ||
  (p == name)

/-- The pattern list used by the spec example of section 8 item 3. -/
def c5_patterns : List PyStr := ["*.tmp".data, "~*".data, "Thumbs.db".data]

/-! ## Chunked hashing (BackupManager._get_file_hash, SyncVault.py 297-314) -/

/-- CHUNK_SIZE from SyncVault.py line 51: 1 MiB read chunks. -/
def CHUNK_SIZE : Nat := 1024 * 1024

/-- Model of a hashlib.md5 object (hashlib is standard-library code outside
this repository): its observable state is exactly the byte stream fed through
update so far, and the hex digest is a pure function of that stream.  Bytes
are modelled as natural numbers. -/
structure MD5State where
  fed : List Nat

/-- Model of hashlib.md5(): no bytes fed yet. -/
def md5_new : MD5State := ⟨[]⟩

/-- Model of md5.update(chunk): append the chunk to the fed stream. -/
def md5_update (s : MD5State) (chunk : List Nat) : MD5State := ⟨s.fed ++ chunk⟩

/-- Model of md5.hexdigest(): a pure function of the fed stream.  The MD5
compression itself lives in the standard library, outside this repository;
every claim about it here only compares digests of byte streams, so the
model exposes the stream itself as the digest value. -/
def md5_hexdigest (s : MD5State) : List Nat := s.fed

/-- The read loop of _get_file_hash: f.read(CHUNK_SIZE) repeatedly until the
read comes back empty, collecting the successive chunks of the file content. -/
def file_read_chunks (content : List Nat) : List (List Nat) :=
  if h : content = [] then []
  else content.take CHUNK_SIZE :: file_read_chunks (content.drop CHUNK_SIZE)
termination_by content.length
decreasing_by
  simp only [List.length_drop]
  have hpos : 0 < content.length := List.length_pos.mpr h
  have hc : 0 < CHUNK_SIZE := by norm_num [CHUNK_SIZE]
  omega

/-- BackupManager._get_file_hash on a file with the given content: feed the
1 MiB chunks of the content into a fresh md5 state and take the hex digest. -/
def get_file_hash (content : List Nat) : List Nat :=
  md5_hexdigest ((file_read_chunks content).foldl md5_update md5_new)

/-! ## Thread-safe statistics (FileProcessor, SyncVault.py 53-82) -/

/-- The four counters of FileProcessor. -/
structure Stats where
  processed : Nat
  skipped : Nat
  errors : Nat
  total_size : Nat
deriving DecidableEq

/-- FileProcessor initial state: all counters zero. -/
def init_stats : Stats := ⟨0, 0, 0, 0⟩

/-- FileProcessor.update_stats: add the given deltas to the counters.  The
lock makes each call atomic; atomic read-modify-writes of a commutative
update are modelled by function application in completion order. -/
def update_stats (s : Stats) (processed skipped error size : Nat) : Stats :=
  { processed := s.processed + processed
    skipped := s.skipped + skipped
    errors := s.errors + error
    total_size := s.total_size + size }

/-! ## Per-file processing (BackupManager._process_file, SyncVault.py 364-408) -/

/-- The per-worker environment of one run: the outcome of hashing a path
(none models the exception branch of _get_file_hash), whether the
makedirs/copy2/getsize sequence succeeds for a path, and the size
os.path.getsize reports. -/
structure WorkerEnv where
  hash : PyStr → Option PyStr
  copyOk : PyStr → Bool
  size : PyStr → Nat

/-- The three exits of _process_file: return (rel_path, file_hash) after a
copy, return None after the unchanged-skip, or return None from the except
branch. -/
inductive FileResult where
  | staged : PyStr → PyStr → Nat → FileResult
  | skipped : FileResult
  | errored : FileResult
deriving DecidableEq

/-- BackupManager._process_file on one (absolute path, relative path) task:
hash the file (an exception counts an error); on a differential run skip
when the prior manifest maps the relative path to exactly the fresh hash;
otherwise copy into the staging directory (a failure counts an error) and
report the staged entry together with the file size. -/
def process_file (env : WorkerEnv) (last_manifest : List (PyStr × PyStr))
    (is_full_backup : Bool) (file_info : PyStr × PyStr) : FileResult :=
  match env.hash file_info.1 with
  | none => .errored
  | some file_hash =>
    if !is_full_backup && (List.lookup file_info.2 last_manifest == some file_hash) then
      .skipped
    else if env.copyOk file_info.1 then
      .staged file_info.2 file_hash (env.size file_info.1)
    else
      .errored

/-- The manifest: a Python dict from archive-relative path to hex digest,
modelled as an association list whose lookup returns the first match. -/
abbrev Manifest := List (PyStr × PyStr)

/-- Python dict assignment d[k] = v: replace the value in place when the key
is present, append a new entry otherwise. -/
def dict_set (m : Manifest) (k v : PyStr) : Manifest :=
  match m with
  | [] => [(k, v)]
  | (k0, v0) :: rest => if k0 == k then (k, v) :: rest else (k0, v0) :: dict_set rest k v

/-- One iteration of the as_completed collection loop of run_backup
(SyncVault.py 537-543) joined with the stats update the worker performed
inside _process_file: a staged result is inserted into the manifest under
the manifest lock and counted as processed, a skip or error only bumps its
counter. -/
def stage_step (env : WorkerEnv) (last_manifest : Manifest) (is_full_backup : Bool)
    (acc : Manifest × Stats) (t : PyStr × PyStr) : Manifest × Stats :=
  match process_file env last_manifest is_full_backup t with
  | .staged rel h sz => (dict_set acc.1 rel h, update_stats acc.2 1 0 0 sz)
  | .skipped => (acc.1, update_stats acc.2 0 1 0 0)
  | .errored => (acc.1, update_stats acc.2 0 0 1 0)

/-- The whole parallel staging phase of run_backup observed at the join
barrier: starting from an empty manifest and zeroed stats, fold stage_step
over the tasks in the completion order the pool happened to produce. -/
def stage_run (env : WorkerEnv) (last_manifest : Manifest) (is_full_backup : Bool)
    (order : List (PyStr × PyStr)) : Manifest × Stats :=
  order.foldl (stage_step env last_manifest is_full_backup) ([], init_stats)

/-- The staged (relative path, digest) results of the tasks, in completion
order: the successful _process_file return values. -/
def staged_pairs (env : WorkerEnv) (last_manifest : Manifest) (is_full_backup : Bool)
    (order : List (PyStr × PyStr)) : Manifest :=
  order.filterMap (fun t =>
    match process_file env last_manifest is_full_backup t with
    | .staged rel h _ => some (rel, h)
    | _ => none)

/-- The archive-relative paths of the staged files of a run. -/
def staged_rels (env : WorkerEnv) (last_manifest : Manifest) (is_full_backup : Bool)
    (order : List (PyStr × PyStr)) : List PyStr :=
  (staged_pairs env last_manifest is_full_backup order).map Prod.fst

/-! ## Orchestration (BackupManager.run_backup and helpers) -/

/-- One history record as built at SyncVault.py 592-603.  The elapsed_time
field is wall-clock floating point and is left out of the model. -/
structure BackupRecord where
  timestamp : PyStr
  rectype : PyStr
  path : PyStr
  manifest_path : Option PyStr
  size : Nat
  file_count : Nat
  processed : Nat
  skipped : Nat
  errors : Nat
deriving DecidableEq

/-- The configuration fields run_backup reads.  full_backup_day flattens
config["schedule"]["full_backup_day"]. -/
structure Config where
  sources : List PyStr
  destination : PyStr
  backup_type : PyStr
  compress : Bool
  compression_format : PyStr
  full_backup_day : Nat
  history : List BackupRecord

/-- BackupManager.should_run_full_backup (SyncVault.py 274-295): full when
the history is empty, when the configured type is full, or when today's
weekday equals the configured full-backup weekday.  The current weekday is
an input (datetime.datetime.now is external). -/
def should_run_full_backup (cfg : Config) (today_weekday : Nat) : Bool :=
  if cfg.history.isEmpty then true
  else if cfg.backup_type == "full".data then true
  else if today_weekday == cfg.full_backup_day then true
  else false

/-- BackupManager._get_last_backup_manifest (SyncVault.py 410-430): read the
manifest of the last history record; an empty history, a missing or falsy
manifest_path, a missing file or a JSON error (read_manifest returning none)
all yield the empty dict. -/
def get_last_backup_manifest (history : List BackupRecord)
    (read_manifest : PyStr → Option Manifest) : Manifest :=
  match history.getLast? with
  | none => []
  | some last =>
    match last.manifest_path with
    | none => []
    | some p =>
      if p.isEmpty then []
      else
        match read_manifest p with
        | none => []
        | some m => m

/-- BackupManager._create_backup_filename (SyncVault.py 432-450). -/
def create_backup_filename (cfg : Config) (date_str : PyStr) (is_full : Bool) : PyStr :=
  let bt := if is_full then "full".data else "diff".data
  let ext :=
    if cfg.compress then
      (if cfg.compression_format == "zip".data then ".zip".data else ".tar.gz".data)
    else []
  "backup_".data ++ date_str ++ "_".data ++ bt ++ ext

/-- The external inputs of one run_backup call: the worker environment, the
task list _collect_files produced from the filesystem walk, the completion
order of the pool, the clock values, the home directory, the reader for a
prior manifest file, and the size the destination artifact ends up with. -/
structure RunEnv where
  worker : WorkerEnv
  files : List (PyStr × PyStr)
  order : List (PyStr × PyStr)
  today_weekday : Nat
  timestamp : PyStr
  home : PyStr
  read_manifest : PyStr → Option Manifest
  archive_size : Nat

/-- The observable outcome of one run_backup call: the returned boolean, the
staging-directory lifecycle, whether a destination artifact was produced,
the final manifest and stats, and the history list after the run. -/
structure RunOutcome where
  success : Bool
  temp_dir_created : Bool
  temp_dir_removed : Bool
  archive_produced : Bool
  manifest : Manifest
  stats : Stats
  history : List BackupRecord

/-- The staging (temp) directory path of a run (SyncVault.py 491-493). -/
def temp_dir_path (env : RunEnv) : PyStr :=
  env.home ++ "/.backup_temp_".data ++ env.timestamp

/-- The prior manifest run_backup hands the workers (SyncVault.py 506):
empty on a full run, otherwise loaded from the last history record. -/
def run_last_manifest (cfg : Config) (env : RunEnv) : Manifest :=
  if should_run_full_backup cfg env.today_weekday then []
  else get_last_backup_manifest cfg.history env.read_manifest

/-- The manifest and stats of one run at the pool join barrier. -/
def run_stage (cfg : Config) (env : RunEnv) : Manifest × Stats :=
  stage_run env.worker (run_last_manifest cfg env)
    (should_run_full_backup cfg env.today_weekday) env.order

/-- The history record run_backup appends on success (SyncVault.py 592-603):
manifest_path is the staging-directory manifest file when compression is
off and None when compression is on. -/
def run_record (cfg : Config) (env : RunEnv) : BackupRecord :=
  { timestamp := env.timestamp
    rectype := if should_run_full_backup cfg env.today_weekday
               then "full".data else "differential".data
    path := cfg.destination ++ "/".data
              ++ create_backup_filename cfg env.timestamp
                   (should_run_full_backup cfg env.today_weekday)
    manifest_path := if !cfg.compress
                     then some (temp_dir_path env ++ "/manifest.json".data) else none
    size := env.archive_size
    file_count := (run_stage cfg env).1.length
    processed := (run_stage cfg env).2.processed
    skipped := (run_stage cfg env).2.skipped
    errors := (run_stage cfg env).2.errors }

/-- BackupManager.run_backup (SyncVault.py 470-617).  The archiver
(_compress_directory / shutil.copytree) is an external collaborator modelled
as succeeding; the finally block removes the staging directory exactly when
it exists and compression is enabled. -/
def run_backup (cfg : Config) (env : RunEnv) : RunOutcome :=
  if cfg.sources.isEmpty then
    ⟨false, false, false, false, [], init_stats, cfg.history⟩
  else if cfg.destination.isEmpty then
    ⟨false, false, false, false, [], init_stats, cfg.history⟩
  else if env.files.isEmpty then
    ⟨false, true, cfg.compress, false, [], init_stats, cfg.history⟩
  else if (run_stage cfg env).1.isEmpty then
    ⟨false, true, cfg.compress, false, (run_stage cfg env).1, (run_stage cfg env).2,
      cfg.history⟩
  else
    ⟨true, true, cfg.compress, true, (run_stage cfg env).1, (run_stage cfg env).2,
      cfg.history ++ [run_record cfg env]⟩

/-! ## Helper lemmas -/

theorem exclude_loop_eq_any (name : PyStr) (ps : List PyStr) :
    exclude_loop name ps = ps.any (fun p => spec_pattern_match p name) := by
  induction ps with
  | nil => rfl
  | cons p rest ih =>
    simp only [List.any_cons]
    rw [← ih]
    simp only [exclude_loop, spec_pattern_match]
    cases hA : (List.isPrefixOf ['*'] p && List.isSuffixOf (p.drop 1) name) <;>
      cases hB : (List.isSuffixOf ['*'] p && List.isPrefixOf p.dropLast name) <;>
        cases hC : (p == name) <;>
          simp only [hA, hB, hC, Bool.false_or, Bool.true_or,
            Bool.or_true, Bool.or_false] <;> simp

theorem file_read_chunks_join_aux :
    ∀ (n : Nat) (content : List Nat), content.length ≤ n →
      (file_read_chunks content).flatten = content := by
  intro n
  induction n with
  | zero =>
    intro content hc
    have hnil : content = [] := List.eq_nil_of_length_eq_zero (Nat.le_zero.mp hc)
    simp [hnil, file_read_chunks]
  | succ n ih =>
    intro content hc
    rw [file_read_chunks]
    split
    · simp [*]
    · rename_i hne
      have hlen : (content.drop CHUNK_SIZE).length ≤ n := by
        simp only [List.length_drop]
        have hpos := List.length_pos.mpr hne
        have hcs : 0 < CHUNK_SIZE := by norm_num [CHUNK_SIZE]
        omega
      rw [List.flatten_cons, ih _ hlen, List.take_append_drop]

theorem file_read_chunks_join (content : List Nat) :
    (file_read_chunks content).flatten = content :=
  file_read_chunks_join_aux content.length content le_rfl

theorem foldl_md5_update_fed (chunks : List (List Nat)) (s : MD5State) :
    (chunks.foldl md5_update s).fed = s.fed ++ chunks.flatten := by
  induction chunks generalizing s with
  | nil => simp
  | cons c rest ih => simp [md5_update, ih, List.append_assoc]

theorem stage_counts_aux (env : WorkerEnv) (lm : Manifest) (full : Bool)
    (order : List (PyStr × PyStr)) : ∀ (m0 : Manifest) (s0 : Stats),
    ((order.foldl (stage_step env lm full) (m0, s0)).2.processed
      + (order.foldl (stage_step env lm full) (m0, s0)).2.skipped
      + (order.foldl (stage_step env lm full) (m0, s0)).2.errors)
      = s0.processed + s0.skipped + s0.errors + order.length := by
  induction order with
  | nil => intro m0 s0; simp
  | cons t rest ih =>
    intro m0 s0
    rw [List.foldl_cons]
    cases hpf : process_file env lm full t <;>
      simp only [stage_step, hpf] <;> rw [ih] <;> simp [update_stats] <;> omega

/-- The first defined option, the standard fallback combinator used to state
where a manifest lookup is decided. -/
def first_some {α : Type} (a b : Option α) : Option α :=
  match a with
  | some x => some x
  | none => b

theorem first_some_none_right {α : Type} (a : Option α) : first_some a none = a := by
  cases a <;> rfl

theorem first_some_assoc {α : Type} (a b c : Option α) :
    first_some (first_some a b) c = first_some a (first_some b c) := by
  cases a <;> rfl

theorem lookup_append (k : PyStr) (l1 l2 : Manifest) :
    List.lookup k (l1 ++ l2) = first_some (List.lookup k l1) (List.lookup k l2) := by
  induction l1 with
  | nil => simp [first_some]
  | cons kv rest ih =>
    obtain ⟨k0, v0⟩ := kv
    cases hb : (k == k0) <;> simp [List.lookup_cons, hb, ih, first_some]

theorem lookup_dict_set (m : Manifest) (k v k' : PyStr) :
    List.lookup k' (dict_set m k v) = if k' = k then some v else List.lookup k' m := by
  induction m with
  | nil =>
    by_cases h : k' = k
    · simp [dict_set, List.lookup_cons, h]
    · simp [dict_set, List.lookup_cons, h, beq_false_of_ne h]
  | cons kv rest ih =>
    obtain ⟨k0, v0⟩ := kv
    by_cases h0 : k0 = k
    · subst h0
      by_cases h : k' = k0
      · simp [dict_set, List.lookup_cons, h]
      · simp [dict_set, List.lookup_cons, h, beq_false_of_ne h]
    · have hb : (k0 == k) = false := beq_false_of_ne h0
      by_cases h : k' = k0
      · subst h
        simp [dict_set, hb, List.lookup_cons, h0]
      · simp [dict_set, hb, List.lookup_cons, beq_false_of_ne h, ih]

theorem process_file_staged_eq {env : WorkerEnv} {lm : Manifest} {full : Bool}
    {t : PyStr × PyStr} {r h : PyStr} {sz : Nat}
    (hpf : process_file env lm full t = .staged r h sz) :
    r = t.2 ∧ env.hash t.1 = some h ∧ sz = env.size t.1 := by
  unfold process_file at hpf
  cases hh : env.hash t.1 <;> rw [hh] at hpf <;> dsimp only at hpf
  · cases hpf
  · rename_i fh
    by_cases hskip : (!full && (List.lookup t.2 lm == some fh)) = true
    · rw [if_pos hskip] at hpf; cases hpf
    · rw [if_neg hskip] at hpf
      by_cases hcopy : env.copyOk t.1 = true
      · rw [if_pos hcopy] at hpf
        cases hpf
        exact ⟨rfl, rfl, rfl⟩
      · rw [if_neg hcopy] at hpf; cases hpf

theorem staged_pairs_nil (env : WorkerEnv) (lm : Manifest) (full : Bool) :
    staged_pairs env lm full [] = [] := rfl

theorem staged_pairs_cons (env : WorkerEnv) (lm : Manifest) (full : Bool)
    (t : PyStr × PyStr) (rest : List (PyStr × PyStr)) :
    staged_pairs env lm full (t :: rest) =
      (match process_file env lm full t with
       | .staged rel h _ => [(rel, h)]
       | _ => []) ++ staged_pairs env lm full rest := by
  cases hpf : process_file env lm full t <;> simp [staged_pairs, hpf]

theorem lookup_stage_foldl (env : WorkerEnv) (lm : Manifest) (full : Bool)
    (order : List (PyStr × PyStr)) : ∀ (m0 : Manifest) (s0 : Stats) (rel : PyStr),
    List.lookup rel (order.foldl (stage_step env lm full) (m0, s0)).1
      = first_some (List.lookup rel (staged_pairs env lm full order).reverse)
          (List.lookup rel m0) := by
  induction order with
  | nil => intro m0 s0 rel; simp [staged_pairs, first_some]
  | cons t rest ih =>
    intro m0 s0 rel
    rw [List.foldl_cons, staged_pairs_cons]
    cases hpf : process_file env lm full t with
    | staged r h sz =>
      simp only [stage_step, hpf, List.reverse_append]
      rw [ih, lookup_append, first_some_assoc, lookup_dict_set]
      congr 1
      by_cases hr : rel = r <;>
        simp [hr, List.lookup_cons, first_some, beq_false_of_ne]
    | skipped => simp only [stage_step, hpf, List.nil_append]; rw [ih]
    | errored => simp only [stage_step, hpf, List.nil_append]; rw [ih]

theorem lookup_stage_run (env : WorkerEnv) (lm : Manifest) (full : Bool)
    (order : List (PyStr × PyStr)) (rel : PyStr) :
    List.lookup rel (stage_run env lm full order).1
      = List.lookup rel (staged_pairs env lm full order).reverse := by
  rw [stage_run, lookup_stage_foldl]
  exact first_some_none_right _

theorem mem_of_lookup_eq_some {k v : PyStr} {l : Manifest}
    (h : List.lookup k l = some v) : (k, v) ∈ l := by
  induction l with
  | nil => cases h
  | cons kv rest ih =>
    obtain ⟨k0, v0⟩ := kv
    rw [List.lookup_cons] at h
    cases hb : (k == k0) <;> rw [hb] at h
    · exact List.mem_cons_of_mem _ (ih h)
    · cases h
      have : k = k0 := eq_of_beq hb
      subst this
      exact List.mem_cons_self _ _

theorem lookup_eq_some_of_mem_nodup {k v : PyStr} {l : Manifest}
    (hnd : (l.map Prod.fst).Nodup) (hm : (k, v) ∈ l) : List.lookup k l = some v := by
  induction l with
  | nil => cases hm
  | cons kv rest ih =>
    obtain ⟨k0, v0⟩ := kv
    rw [List.map_cons, List.nodup_cons] at hnd
    rcases List.mem_cons.mp hm with heq | hmem
    · cases heq
      simp [List.lookup_cons]
    · have hk : k ≠ k0 := by
        intro hkk
        subst hkk
        exact hnd.1 (List.mem_map.mpr ⟨(k, v), hmem, rfl⟩)
      rw [List.lookup_cons, beq_false_of_ne hk]
      exact ih hnd.2 hmem

theorem lookup_eq_none_iff {k : PyStr} {l : Manifest} :
    List.lookup k l = none ↔ k ∉ l.map Prod.fst := by
  induction l with
  | nil => simp
  | cons kv rest ih =>
    obtain ⟨k0, v0⟩ := kv
    by_cases h : k = k0
    · subst h
      simp [List.lookup_cons]
    · simp [List.lookup_cons, beq_false_of_ne h, ih, h]

theorem lookup_isSome_iff {k : PyStr} {l : Manifest} :
    (List.lookup k l).isSome = true ↔ ∃ v, (k, v) ∈ l := by
  constructor
  · intro hs
    rcases ho : List.lookup k l with _ | v
    · rw [ho] at hs; cases hs
    · exact ⟨v, mem_of_lookup_eq_some ho⟩
  · rintro ⟨v, hv⟩
    rcases ho : List.lookup k l with _ | w
    · exfalso
      have : k ∉ l.map Prod.fst := lookup_eq_none_iff.mp ho
      exact this (List.mem_map.mpr ⟨(k, v), hv, rfl⟩)
    · rfl

theorem lookup_eq_of_perm_nodup {l1 l2 : Manifest} (hp : l1.Perm l2)
    (hnd : (l1.map Prod.fst).Nodup) (k : PyStr) :
    List.lookup k l1 = List.lookup k l2 := by
  have hnd2 : (l2.map Prod.fst).Nodup := ((hp.map Prod.fst).nodup_iff).mp hnd
  rcases hl : List.lookup k l1 with _ | v
  · rcases hl2 : List.lookup k l2 with _ | w
    · rfl
    · exfalso
      have hmem : (k, w) ∈ l1 := hp.symm.subset (mem_of_lookup_eq_some hl2)
      rw [lookup_eq_some_of_mem_nodup hnd hmem] at hl
      cases hl
  · have hmem : (k, v) ∈ l2 := hp.subset (mem_of_lookup_eq_some hl)
    exact (lookup_eq_some_of_mem_nodup hnd2 hmem).symm

/-- The four counters as a tuple, so the additive structure of products of
naturals applies. -/
def stats_tuple (s : Stats) : Nat × Nat × Nat × Nat :=
  (s.processed, s.skipped, s.errors, s.total_size)

/-- The per-task stats contribution of one _process_file call. -/
def stats_delta (env : WorkerEnv) (lm : Manifest) (full : Bool)
    (t : PyStr × PyStr) : Nat × Nat × Nat × Nat :=
  match process_file env lm full t with
  | .staged _ _ sz => (1, 0, 0, sz)
  | .skipped => (0, 1, 0, 0)
  | .errored => (0, 0, 1, 0)

theorem stats_tuple_inj {a b : Stats} (h : stats_tuple a = stats_tuple b) : a = b := by
  cases a; cases b
  simpa [stats_tuple, Prod.ext_iff] using h

theorem stage_stats_eq_sum (env : WorkerEnv) (lm : Manifest) (full : Bool)
    (order : List (PyStr × PyStr)) : ∀ (m0 : Manifest) (s0 : Stats),
    stats_tuple (order.foldl (stage_step env lm full) (m0, s0)).2
      = stats_tuple s0 + (order.map (stats_delta env lm full)).sum := by
  induction order with
  | nil => intro m0 s0; simp
  | cons t rest ih =>
    intro m0 s0
    rw [List.foldl_cons, List.map_cons, List.sum_cons]
    cases hpf : process_file env lm full t <;>
      simp only [stage_step, hpf] <;> rw [ih] <;>
        simp [stats_tuple, update_stats, stats_delta, hpf, Prod.ext_iff] <;> omega

theorem stage_stats_perm (env : WorkerEnv) (lm : Manifest) (full : Bool)
    {o1 o2 : List (PyStr × PyStr)} (hp : o1.Perm o2) :
    (stage_run env lm full o1).2 = (stage_run env lm full o2).2 := by
  apply stats_tuple_inj
  rw [stage_run, stage_run, stage_stats_eq_sum, stage_stats_eq_sum,
    (hp.map (stats_delta env lm full)).sum_eq]

theorem staged_pairs_perm (env : WorkerEnv) (lm : Manifest) (full : Bool)
    {o1 o2 : List (PyStr × PyStr)} (hp : o1.Perm o2) :
    (staged_pairs env lm full o1).Perm (staged_pairs env lm full o2) :=
  hp.filterMap _

theorem staged_pairs_keys_sublist (env : WorkerEnv) (lm : Manifest) (full : Bool)
    (order : List (PyStr × PyStr)) :
    ((staged_pairs env lm full order).map Prod.fst).Sublist (order.map Prod.snd) := by
  induction order with
  | nil => simp [staged_pairs]
  | cons t rest ih =>
    rw [staged_pairs_cons, List.map_cons]
    cases hpf : process_file env lm full t with
    | staged r h sz =>
      have hr : r = t.2 := (process_file_staged_eq hpf).1
      subst hr
      simpa using List.Sublist.cons₂ t.2 ih
    | skipped => simpa using List.Sublist.cons t.2 ih
    | errored => simpa using List.Sublist.cons t.2 ih

/-- C5: should_exclude matches the configured patterns against the base name
only, with the three spec pattern shapes (star-prefix suffix match,
star-suffix prefix match, exact equality), the first matching pattern wins
(every match yields true, so the loop equals an any over the patterns), an
empty pattern list yields false, and on the spec's example pattern list the
names a.tmp, ~lock and Thumbs.db are excluded while a.tmpx and notes.txt
are not. -/
theorem c5_exclusion_matches_spec :
    (∀ (ps : List PyStr) (path : PyStr),
       should_exclude ps path = ps.any (fun p => spec_pattern_match p (py_basename path))) ∧
    (∀ path : PyStr, should_exclude [] path = false) ∧
    (should_exclude c5_patterns "a.tmp".data = true ∧
     should_exclude c5_patterns "~lock".data = true ∧
     should_exclude c5_patterns "Thumbs.db".data = true ∧
     should_exclude c5_patterns "a.tmpx".data = false ∧
     should_exclude c5_patterns "notes.txt".data = false) := by
  refine ⟨fun ps path => ?_, fun path => rfl, by decide, by decide, by decide, by decide, by decide⟩
  exact exclude_loop_eq_any (py_basename path) ps

/-- C6: hashing any byte sequence by feeding the fixed 1 MiB read chunks into
the digest state yields the same digest as feeding the whole stream in one
update, for every content (in particular sizes 0, 1, one chunk and 2.5
chunks). -/
theorem c6_chunked_hash_eq_one_pass (content : List Nat) :
    get_file_hash content = md5_hexdigest (md5_update md5_new content) := by
  simp [get_file_hash, md5_hexdigest, foldl_md5_update_fed, file_read_chunks_join,
    md5_update, md5_new]

/-- C2: for every run over any task list, any environment, any prior manifest
and backup flag, the aggregated stats at the join barrier satisfy
processed + skipped + errors = number of dispatched tasks; each
_process_file call bumps exactly one of the three counters exactly once. -/
theorem c2_stats_invariant (env : WorkerEnv) (lm : Manifest) (full : Bool)
    (order : List (PyStr × PyStr)) :
    (stage_run env lm full order).2.processed + (stage_run env lm full order).2.skipped
      + (stage_run env lm full order).2.errors = order.length := by
  simpa [stage_run, init_stats] using stage_counts_aux env lm full order [] init_stats

/-- C8: should_run_full_backup returns true exactly when the history is
empty, or the configured backup type is full, or the current weekday equals
the configured full-backup weekday. -/
theorem c8_full_backup_decision (cfg : Config) (d : Nat) :
    should_run_full_backup cfg d = true ↔
      (cfg.history = [] ∨ cfg.backup_type = "full".data ∨ d = cfg.full_backup_day) := by
  unfold should_run_full_backup
  split_ifs with h1 h2 h3 <;> simp_all [List.isEmpty_iff]

/-- A differential-run scenario with one unchanged and one changed file:
hashing succeeds on both source files, copying always succeeds. -/
def c1_env : WorkerEnv where
  hash := fun p =>
    if p == "/src/a.txt".data then some "h1".data
    else if p == "/src/b.txt".data then some "h2".data
    else none
  copyOk := fun _ => true
  size := fun _ => 1

/-- The prior manifest of the scenario: a.txt recorded with its current
digest (unchanged), b.txt absent (new or changed). -/
def c1_prior : Manifest := [("a.txt".data, "h1".data)]

/-- The two enumerated tasks of the scenario. -/
def c1_tasks : List (PyStr × PyStr) :=
  [("/src/a.txt".data, "a.txt".data), ("/src/b.txt".data, "b.txt".data)]

/-- C1 counterexample: in a differential run the file a.txt is enumerated and
its digest is computed (the hash call succeeds), yet the current manifest
produced by the staging loop has no entry for it: the unchanged entry is not
carried forward, the manifest holds only the newly staged b.txt. -/
theorem c1_counterexample :
    c1_env.hash "/src/a.txt".data = some "h1".data ∧
    ("/src/a.txt".data, "a.txt".data) ∈ c1_tasks ∧
    (stage_run c1_env c1_prior false c1_tasks).1 = [("b.txt".data, "h2".data)] ∧
    List.lookup "a.txt".data (stage_run c1_env c1_prior false c1_tasks).1 = none := by
  refine ⟨by decide, by decide, by decide, by decide⟩

/-- C1 amended: the current manifest of a run contains exactly the entries of
the files the run staged: a relative path has an entry exactly when some task
of the run was staged under it; files skipped as unchanged (and files that
errored) are absent and are recoverable only from earlier backup artifacts. -/
theorem c1_manifest_exactly_staged (env : WorkerEnv) (lm : Manifest) (full : Bool)
    (order : List (PyStr × PyStr)) (rel : PyStr) :
    (List.lookup rel (stage_run env lm full order).1).isSome = true ↔
      ∃ t ∈ order, ∃ h sz, process_file env lm full t = .staged rel h sz := by
  rw [lookup_stage_run, lookup_isSome_iff]
  constructor
  · rintro ⟨v, hv⟩
    rw [List.mem_reverse] at hv
    obtain ⟨t, ht, hmap⟩ := List.mem_filterMap.mp hv
    refine ⟨t, ht, ?_⟩
    cases hpf : process_file env lm full t <;> rw [hpf] at hmap
    · rename_i r hh sz
      dsimp only at hmap
      rw [Option.some.injEq, Prod.mk.injEq] at hmap
      obtain ⟨hr, hv⟩ := hmap
      exact ⟨hh, sz, by rw [hr]⟩
    · cases hmap
    · cases hmap
  · rintro ⟨t, ht, h, sz, hpf⟩
    refine ⟨h, ?_⟩
    rw [List.mem_reverse]
    exact List.mem_filterMap.mpr ⟨t, ht, by rw [hpf]⟩

/-- C3: first part, the classification rule of _process_file for a task whose
hash and copy both succeed: it is staged exactly when the run is full or the
prior manifest does not map its relative path to the fresh digest, and it is
skipped exactly when the run is differential and the prior manifest maps its
relative path to exactly the fresh digest.  Second part, differential
correctness: when exactly one task's content changed relative to the prior
manifest (every other enumerated task hashes to exactly its prior manifest
digest), a differential run stages exactly that one file. -/
theorem c3_stage_skip_rule :
    (∀ (env : WorkerEnv) (lm : Manifest) (full : Bool) (t : PyStr × PyStr) (h : PyStr),
       env.hash t.1 = some h → env.copyOk t.1 = true →
       ((process_file env lm full t = .staged t.2 h (env.size t.1) ↔
           (full = true ∨ ¬ List.lookup t.2 lm = some h)) ∧
        (process_file env lm full t = .skipped ↔
           (full = false ∧ List.lookup t.2 lm = some h)))) ∧
    (∀ (env : WorkerEnv) (lm : Manifest) (tasks : List (PyStr × PyStr))
       (t0 : PyStr × PyStr) (h0 g : PyStr),
       tasks.count t0 = 1 →
       env.hash t0.1 = some h0 → env.copyOk t0.1 = true →
       List.lookup t0.2 lm = some g → g ≠ h0 →
       (∀ t ∈ tasks, t ≠ t0 → ∃ ht, env.hash t.1 = some ht ∧ List.lookup t.2 lm = some ht) →
       staged_rels env lm false tasks = [t0.2]) := by
  constructor
  · intro env lm full t h hh hcopy
    unfold process_file
    rw [hh]
    dsimp only
    cases full with
    | true =>
      simp only [Bool.not_true, Bool.false_and, if_false, Bool.false_eq_true, hcopy, if_true]
      constructor
      · simp
      · constructor
        · intro hlt; cases hlt
        · rintro ⟨hft, _⟩; cases hft
    | false =>
      simp only [Bool.not_false, Bool.true_and]
      cases hl : (List.lookup t.2 lm == some h) with
      | true =>
        have hle : List.lookup t.2 lm = some h := eq_of_beq hl
        simp [hle]
      | false =>
        have hlne : ¬ List.lookup t.2 lm = some h := by
          intro he
          rw [he] at hl
          simp at hl
        simp [hcopy, hlne]
  · intro env lm tasks t0 h0 g hcount hh0 hcopy0 hlg hne hothers
    induction tasks with
    | nil => cases hcount
    | cons t rest ih =>
      by_cases ht0 : t = t0
      · subst ht0
        have hrest0 : rest.count t = 0 := by
          have := hcount
          rw [List.count_cons_self] at this
          omega
        have hstage : process_file env lm false t = .staged t.2 h0 (env.size t.1) := by
          unfold process_file
          rw [hh0]
          dsimp only
          have hbeq : (List.lookup t.2 lm == some h0) = false := by
            rw [hlg]
            simp [hne]
          simp [hbeq, hcopy0]
        have hskiprest : staged_rels env lm false rest = [] := by
          have hall : ∀ u ∈ rest, process_file env lm false u = .skipped := by
            intro u hu
            have hune : u ≠ t := by
              intro he
              subst he
              rw [List.count_eq_zero] at hrest0
              exact hrest0 hu
            obtain ⟨ht, hht, hlt⟩ := hothers u (List.mem_cons_of_mem _ hu) hune
            unfold process_file
            rw [hht]
            dsimp only
            rw [hlt]
            simp
          unfold staged_rels
          rw [List.map_eq_nil_iff]
          unfold staged_pairs
          rw [List.filterMap_eq_nil_iff]
          intro u hu
          rw [hall u hu]
        unfold staged_rels at hskiprest ⊢
        unfold staged_pairs at hskiprest ⊢
        rw [List.filterMap_cons, hstage]
        dsimp only
        rw [List.map_cons]
        rw [List.map_eq_nil_iff] at hskiprest
        rw [hskiprest]
        rfl
      · have hstep : process_file env lm false t = .skipped := by
          obtain ⟨ht, hht, hlt⟩ := hothers t (List.mem_cons_self _ _) ht0
          unfold process_file
          rw [hht]
          dsimp only
          rw [hlt]
          simp
        have hcount2 : rest.count t0 = 1 := by
          rw [List.count_cons_of_ne (fun he => ht0 he.symm)] at hcount
          exact hcount
        have hoth2 : ∀ u ∈ rest, u ≠ t0 →
            ∃ ht, env.hash u.1 = some ht ∧ List.lookup u.2 lm = some ht := by
          intro u hu hune
          exact hothers u (List.mem_cons_of_mem _ hu) hune
        have htl := ih hcount2 hoth2
        unfold staged_rels at htl ⊢
        unfold staged_pairs at htl ⊢
        rw [List.filterMap_cons, hstep]
        dsimp only
        exact htl

/-- The one-changed-file scenario used to instantiate C3: ch.txt changed
since the prior manifest, un.txt did not. -/
def c3_env : WorkerEnv where
  hash := fun p =>
    if p == "/s/ch.txt".data then some "new".data
    else if p == "/s/un.txt".data then some "hu".data
    else none
  copyOk := fun _ => true
  size := fun _ => 1

/-- The prior manifest of the C3 scenario. -/
def c3_prior : Manifest := [("ch.txt".data, "old".data), ("un.txt".data, "hu".data)]

/-- The enumerated tasks of the C3 scenario. -/
def c3_tasks : List (PyStr × PyStr) :=
  [("/s/ch.txt".data, "ch.txt".data), ("/s/un.txt".data, "un.txt".data)]

/-- C3 witness: the rule applied at the concrete one-changed-file scenario:
the changed file is staged and the differential staged set is exactly it. -/
theorem c3_stage_skip_rule_witness :
    process_file c3_env c3_prior false ("/s/ch.txt".data, "ch.txt".data) =
      .staged "ch.txt".data "new".data 1 ∧
    staged_rels c3_env c3_prior false c3_tasks = ["ch.txt".data] := by
  constructor
  · exact (c3_stage_skip_rule.1 c3_env c3_prior false
      ("/s/ch.txt".data, "ch.txt".data) "new".data (by decide) (by decide)).1.mpr
      (Or.inr (by decide))
  · refine c3_stage_skip_rule.2 c3_env c3_prior c3_tasks
      ("/s/ch.txt".data, "ch.txt".data) "new".data "old".data
      (by decide) (by decide) (by decide) (by decide) (by decide) ?_
    intro t htm hne
    have ht : t = ("/s/un.txt".data, "un.txt".data) := by
      rcases List.mem_cons.mp htm with h | h
      · exact absurd h hne
      · rcases List.mem_cons.mp h with h2 | h2
        · exact h2
        · cases h2
    subst ht
    exact ⟨"hu".data, by decide, by decide⟩

/-- Two tasks sharing the archive-relative path foo.txt but with different
content: the environment hashing them to different digests. -/
def c7_env : WorkerEnv where
  hash := fun p =>
    if p == "/a/foo.txt".data then some "ha".data
    else if p == "/b/foo.txt".data then some "hb".data
    else none
  copyOk := fun _ => true
  size := fun _ => 1

/-- The colliding task list of the C7 counterexample. -/
def c7_tasks : List (PyStr × PyStr) :=
  [("/a/foo.txt".data, "foo.txt".data), ("/b/foo.txt".data, "foo.txt".data)]

/-- C7 counterexample: for the same task list, prior manifest, backup flag
and file contents, two completion orders (the list order and its reverse,
a permutation of it) give manifests that disagree at foo.txt, so the final
manifest mapping is not independent of completion order when two tasks share
a relative path. -/
theorem c7_counterexample :
    c7_tasks.reverse.Perm c7_tasks ∧
    List.lookup "foo.txt".data (stage_run c7_env [] true c7_tasks).1 = some "hb".data ∧
    List.lookup "foo.txt".data (stage_run c7_env [] true c7_tasks.reverse).1
      = some "ha".data ∧
    (some "hb".data : Option PyStr) ≠ some "ha".data := by
  refine ⟨List.reverse_perm c7_tasks, by decide, by decide, by decide⟩

/-- C7 amended: provided the enumerated tasks carry pairwise-distinct
archive-relative paths, the final manifest mapping and the final stats are
independent of worker count and completion order: any two completion orders
of the same task list give pointwise-equal manifest lookups and equal stats
(the stats are order-independent even without the distinctness proviso, by
stage_stats_perm). -/
theorem c7_amended_order_independent (env : WorkerEnv) (lm : Manifest) (full : Bool)
    (tasks o1 o2 : List (PyStr × PyStr))
    (h1 : o1.Perm tasks) (h2 : o2.Perm tasks)
    (hnd : (tasks.map Prod.snd).Nodup) :
    (∀ rel, List.lookup rel (stage_run env lm full o1).1
        = List.lookup rel (stage_run env lm full o2).1) ∧
    (stage_run env lm full o1).2 = (stage_run env lm full o2).2 := by
  refine ⟨fun rel => ?_, stage_stats_perm env lm full (h1.trans h2.symm)⟩
  rw [lookup_stage_run, lookup_stage_run]
  have hsp : (staged_pairs env lm full o1).Perm (staged_pairs env lm full o2) :=
    staged_pairs_perm env lm full (h1.trans h2.symm)
  have hnd1 : ((staged_pairs env lm full o1).map Prod.fst).Nodup := by
    have hkeys : (o1.map Prod.snd).Nodup :=
      ((h1.map Prod.snd).nodup_iff).mpr hnd
    exact (staged_pairs_keys_sublist env lm full o1).nodup hkeys
  have hrevperm : ((staged_pairs env lm full o1).reverse).Perm
      ((staged_pairs env lm full o2).reverse) :=
    ((staged_pairs env lm full o1).reverse_perm.trans hsp).trans
      (staged_pairs env lm full o2).reverse_perm.symm
  have hndrev : (((staged_pairs env lm full o1).reverse).map Prod.fst).Nodup := by
    rw [List.map_reverse]
    exact List.nodup_reverse.mpr hnd1
  exact lookup_eq_of_perm_nodup hrevperm hndrev rel

/-- Three distinct-path tasks used to instantiate C7. -/
def c7w_env : WorkerEnv where
  hash := fun p =>
    if p == "/s/a.txt".data then some "ha".data
    else if p == "/s/b.txt".data then some "hb".data
    else none
  copyOk := fun p => p != "/s/b.txt".data
  size := fun _ => 2

/-- The distinct-path task list of the C7 witness. -/
def c7w_tasks : List (PyStr × PyStr) :=
  [("/s/a.txt".data, "a.txt".data), ("/s/b.txt".data, "b.txt".data),
   ("/s/c.txt".data, "c.txt".data)]

/-- C7 witness: the amended order-independence applied at a concrete
three-task list and two concrete completion orders of it. -/
theorem c7_amended_order_independent_witness :
    List.lookup "a.txt".data (stage_run c7w_env [] true c7w_tasks).1
      = List.lookup "a.txt".data (stage_run c7w_env [] true c7w_tasks.reverse).1 ∧
    (stage_run c7w_env [] true c7w_tasks).2
      = (stage_run c7w_env [] true c7w_tasks.reverse).2 := by
  have h := c7_amended_order_independent c7w_env [] true c7w_tasks
    c7w_tasks c7w_tasks.reverse (List.Perm.refl _) (List.reverse_perm _) (by decide)
  exact ⟨h.1 "a.txt".data, h.2⟩

theorem isEmpty_false_of_ne_nil {α : Type} {l : List α} (h : l ≠ []) :
    l.isEmpty = false := by
  cases l
  · exact absurd rfl h
  · rfl

/-- C4: for a configured run (sources and destination set), a per-file error
never fails the run: run_backup returns false exactly when no tasks were
enumerated or the resulting manifest is empty, and in either failure case no
destination artifact is produced and the history is unchanged. -/
theorem c4_failure_semantics (cfg : Config) (env : RunEnv)
    (hs : cfg.sources ≠ []) (hd : cfg.destination ≠ []) :
    ((run_backup cfg env).success = false ↔
      (env.files = [] ∨ (run_backup cfg env).manifest = [])) ∧
    ((run_backup cfg env).success = false →
      (run_backup cfg env).archive_produced = false ∧
      (run_backup cfg env).history = cfg.history) := by
  have hs' := isEmpty_false_of_ne_nil hs
  have hd' := isEmpty_false_of_ne_nil hd
  by_cases hf : env.files = []
  · simp [run_backup, hs', hd', hf]
  · have hf' := isEmpty_false_of_ne_nil hf
    by_cases hm : (run_stage cfg env).1 = []
    · have hm' : (run_stage cfg env).1.isEmpty = true := by simp [hm]
      simp [run_backup, hs', hd', hf', hm', hf, hm]
    · have hm' := isEmpty_false_of_ne_nil hm
      simp [run_backup, hs', hd', hf', hm', hf, hm]

/-- A configured backup set with one unreadable source file and an empty
enumeration, used to exercise the failure branches. -/
def sample_cfg : Config :=
  { sources := ["/data".data]
    destination := "/backup".data
    backup_type := "full".data
    compress := true
    compression_format := "zip".data
    full_backup_day := 0
    history := [] }

/-- An environment whose enumeration found no files. -/
def sample_env : RunEnv :=
  { worker := ⟨fun _ => none, fun _ => false, fun _ => 0⟩
    files := []
    order := []
    today_weekday := 0
    timestamp := "20260101_000000".data
    home := "/root".data
    read_manifest := fun _ => none
    archive_size := 0 }

/-- C4 witness: on a configured run that enumerates nothing, run_backup
fails, produces no artifact and appends no history record. -/
theorem c4_failure_semantics_witness :
    (run_backup sample_cfg sample_env).success = false ∧
    (run_backup sample_cfg sample_env).archive_produced = false ∧
    (run_backup sample_cfg sample_env).history = sample_cfg.history := by
  have h := c4_failure_semantics sample_cfg sample_env (by decide) (by decide)
  have hfail : (run_backup sample_cfg sample_env).success = false := h.1.mpr (Or.inl rfl)
  exact ⟨hfail, (h.2 hfail).1, (h.2 hfail).2⟩

/-- C9: for every configured run (the staging directory is created before the
try block), the finally clause removes the staging directory exactly when
compression is enabled, whichever branch the run takes; with compression
disabled the directory, which becomes the backup artifact itself, is never
deleted. -/
theorem c9_temp_dir_cleanup (cfg : Config) (env : RunEnv)
    (hs : cfg.sources ≠ []) (hd : cfg.destination ≠ []) :
    (run_backup cfg env).temp_dir_created = true ∧
    (run_backup cfg env).temp_dir_removed = cfg.compress := by
  have hs' := isEmpty_false_of_ne_nil hs
  have hd' := isEmpty_false_of_ne_nil hd
  by_cases hf : env.files.isEmpty = true <;>
    by_cases hm : (run_stage cfg env).1.isEmpty = true <;>
      simp [run_backup, hs', hd', hf, hm]

/-- C9 witness: the cleanup rule applied at a concrete configured run with
compression enabled. -/
theorem c9_temp_dir_cleanup_witness :
    (run_backup sample_cfg sample_env).temp_dir_created = true ∧
    (run_backup sample_cfg sample_env).temp_dir_removed = sample_cfg.compress :=
  c9_temp_dir_cleanup sample_cfg sample_env (by decide) (by decide)

theorem process_file_empty_not_skipped (env : WorkerEnv) (full : Bool)
    (t : PyStr × PyStr) : process_file env [] full t ≠ .skipped := by
  unfold process_file
  cases hh : env.hash t.1 with
  | none => intro h; cases h
  | some fh =>
    dsimp only
    rw [show (List.lookup t.2 ([] : Manifest) == some fh) = false from rfl]
    simp only [Bool.and_false, Bool.false_eq_true, if_false]
    by_cases hcopy : env.copyOk t.1 = true
    · rw [if_pos hcopy]; intro h; cases h
    · rw [if_neg hcopy]; intro h; cases h

theorem stage_run_skipped_zero_aux (env : WorkerEnv) (full : Bool)
    (order : List (PyStr × PyStr)) : ∀ (m0 : Manifest) (s0 : Stats),
    (order.foldl (stage_step env [] full) (m0, s0)).2.skipped = s0.skipped := by
  induction order with
  | nil => intro m0 s0; rfl
  | cons t rest ih =>
    intro m0 s0
    rw [List.foldl_cons]
    cases hpf : process_file env [] full t with
    | staged r h sz => rw [show stage_step env [] full (m0, s0) t
        = (dict_set m0 r h, update_stats s0 1 0 0 sz) from by
          simp only [stage_step, hpf]]; rw [ih]; rfl
    | skipped => exact absurd hpf (process_file_empty_not_skipped env full t)
    | errored => rw [show stage_step env [] full (m0, s0) t
        = (m0, update_stats s0 0 0 1 0) from by
          simp only [stage_step, hpf]]; rw [ih]; rfl

theorem stage_run_skipped_zero (env : WorkerEnv) (full : Bool)
    (order : List (PyStr × PyStr)) :
    (stage_run env [] full order).2.skipped = 0 :=
  stage_run_skipped_zero_aux env full order [] init_stats

/-- C10: when compression is enabled, the record a successful run appends
stores manifest_path None; a following differential run therefore loads an
empty prior manifest, never takes the unchanged-skip (every dispatched task
is staged or errored, like a full backup in content), and the record it
would append is still labeled differential.  Manifest-based skipping can
thus only take effect after an uncompressed run. -/
theorem c10_compressed_run_forces_full_restage
    (cfg : Config) (env : RunEnv) (cfg2 : Config) (env2 : RunEnv)
    (hcomp : cfg.compress = true)
    (hok : (run_backup cfg env).success = true)
    (hhist : cfg2.history = (run_backup cfg env).history)
    (hdiff : should_run_full_backup cfg2 env2.today_weekday = false)
    (hs2 : cfg2.sources ≠ []) (hd2 : cfg2.destination ≠ []) :
    (∃ rec, (run_backup cfg env).history.getLast? = some rec ∧
      rec.manifest_path = none) ∧
    get_last_backup_manifest cfg2.history env2.read_manifest = [] ∧
    (run_backup cfg2 env2).stats.skipped = 0 ∧
    (env2.files ≠ [] →
      (run_backup cfg2 env2).stats.processed + (run_backup cfg2 env2).stats.errors
        = env2.order.length) ∧
    ((run_backup cfg2 env2).success = true →
      ∃ rec2, (run_backup cfg2 env2).history.getLast? = some rec2 ∧
        rec2.rectype = "differential".data) := by
  have hhist1 : (run_backup cfg env).history = cfg.history ++ [run_record cfg env] := by
    unfold run_backup at hok ⊢
    split_ifs at hok ⊢ <;> simp_all
  have hrecmp : (run_record cfg env).manifest_path = none := by
    simp [run_record, hcomp]
  have hglm : get_last_backup_manifest cfg2.history env2.read_manifest = [] := by
    rw [hhist, hhist1]
    unfold get_last_backup_manifest
    rw [List.getLast?_concat]
    dsimp only
    rw [hrecmp]
  have hlm2 : run_last_manifest cfg2 env2 = [] := by
    unfold run_last_manifest
    rw [hdiff]
    simp [hglm]
  have hstats : (run_backup cfg2 env2).stats = (run_stage cfg2 env2).2 ∨
      (run_backup cfg2 env2).stats = init_stats := by
    unfold run_backup
    rw [isEmpty_false_of_ne_nil hs2, isEmpty_false_of_ne_nil hd2]
    by_cases hf2 : env2.files.isEmpty = true <;>
      by_cases hm2 : (run_stage cfg2 env2).1.isEmpty = true <;>
        simp [hf2, hm2]
  have hskip : (run_backup cfg2 env2).stats.skipped = 0 := by
    rcases hstats with h | h <;> rw [h]
    · rw [run_stage, hlm2, hdiff]
      exact stage_run_skipped_zero env2.worker false env2.order
    · rfl
  refine ⟨⟨run_record cfg env, ?_, hrecmp⟩, hglm, hskip, ?_, ?_⟩
  · rw [hhist1, List.getLast?_concat]
  · intro hf2
    have hstats2 : (run_backup cfg2 env2).stats = (run_stage cfg2 env2).2 := by
      unfold run_backup
      rw [isEmpty_false_of_ne_nil hs2, isEmpty_false_of_ne_nil hd2,
        isEmpty_false_of_ne_nil hf2]
      by_cases hm2 : (run_stage cfg2 env2).1.isEmpty = true <;> simp [hm2]
    have hsum : (run_stage cfg2 env2).2.processed + (run_stage cfg2 env2).2.skipped
        + (run_stage cfg2 env2).2.errors = env2.order.length := by
      rw [run_stage]
      simpa [stage_run, init_stats] using
        stage_counts_aux env2.worker (run_last_manifest cfg2 env2)
          (should_run_full_backup cfg2 env2.today_weekday) env2.order [] init_stats
    have hsk2 : (run_stage cfg2 env2).2.skipped = 0 := by
      rw [run_stage, hlm2, hdiff]
      exact stage_run_skipped_zero env2.worker false env2.order
    rw [hstats2]
    omega
  · intro hok2
    have hh2 : (run_backup cfg2 env2).history
        = cfg2.history ++ [run_record cfg2 env2] := by
      unfold run_backup at hok2 ⊢
      split_ifs at hok2 ⊢ <;> simp_all
    refine ⟨run_record cfg2 env2, ?_, ?_⟩
    · rw [hh2, List.getLast?_concat]
    · simp [run_record, hdiff]

/-- The first run of the C10 scenario: compression on, one readable file. -/
def c10_cfg1 : Config :=
  { sources := ["/data".data]
    destination := "/backup".data
    backup_type := "differential".data
    compress := true
    compression_format := "zip".data
    full_backup_day := 0
    history := [] }

/-- The environment of the first C10 run: one file, hashing and copying
succeed. -/
def c10_env1 : RunEnv :=
  { worker := ⟨fun p => if p == "/data/f.txt".data then some "h1".data else none,
               fun _ => true, fun _ => 3⟩
    files := [("/data/f.txt".data, "data/f.txt".data)]
    order := [("/data/f.txt".data, "data/f.txt".data)]
    today_weekday := 0
    timestamp := "20260101_000000".data
    home := "/root".data
    read_manifest := fun _ => none
    archive_size := 9 }

/-- The second run's configuration: same backup set, history as left by the
first run. -/
def c10_cfg2 : Config :=
  { sources := ["/data".data]
    destination := "/backup".data
    backup_type := "differential".data
    compress := true
    compression_format := "zip".data
    full_backup_day := 0
    history := (run_backup c10_cfg1 c10_env1).history }

/-- The environment of the second C10 run: the same unchanged file, on a
weekday that is not the full-backup day. -/
def c10_env2 : RunEnv :=
  { worker := ⟨fun p => if p == "/data/f.txt".data then some "h1".data else none,
               fun _ => true, fun _ => 3⟩
    files := [("/data/f.txt".data, "data/f.txt".data)]
    order := [("/data/f.txt".data, "data/f.txt".data)]
    today_weekday := 1
    timestamp := "20260102_000000".data
    home := "/root".data
    read_manifest := fun _ => none
    archive_size := 9 }

/-- C10 witness: the concrete two-run scenario: after a successful compressed
run, the follow-up differential run loads an empty prior manifest and skips
nothing even though the file is unchanged. -/
theorem c10_compressed_run_forces_full_restage_witness :
    get_last_backup_manifest c10_cfg2.history c10_env2.read_manifest = [] ∧
    (run_backup c10_cfg2 c10_env2).stats.skipped = 0 ∧
    (run_backup c10_cfg2 c10_env2).stats.processed
      + (run_backup c10_cfg2 c10_env2).stats.errors = c10_env2.order.length := by
  have h := c10_compressed_run_forces_full_restage c10_cfg1 c10_env1 c10_cfg2 c10_env2
    (by decide) (by decide) rfl (by decide) (by decide) (by decide)
  exact ⟨h.2.1, h.2.2.1, h.2.2.2.1 (by decide)⟩

end SyncVault
